import Mathlib

/-!
Shallow embedding of the go-gap-buffer library (package gapbuffer):
the byte-level gap buffer (gap-buffer.go) together with its
line-length index (line-buffer.go), translated function by function
from the Go source.  Bytes are modelled as natural numbers, Go byte
slices as lists of naturals, Go int values that can become negative
(line lengths, column arithmetic) as integers.  Go's built-in copy is
modelled by listCopy below, and the two UTF-8 decoding primitives of
unicode/utf8 used by the source are modelled byte-for-byte.
-/

set_option maxRecDepth 40000

namespace Gapbuffer

/-- Byte value of the newline character. -/
def nl : Nat := 10

/-- Model of Go copy(dst[i:], src): overwrite dst starting at index i
with as many bytes of src as fit, leaving everything else unchanged. -/
def listCopy {α : Type} (dst : List α) (i : Nat) (src : List α) : List α :=
  dst.take i ++ src.take (dst.length - i) ++ dst.drop (i + src.length)

/-- Number of elements Go copy(dst[i:], src) reports as copied. -/
def copyLen {α : Type} (dst : List α) (i : Nat) (src : List α) : Nat :=
  min (dst.length - i) src.length

/-! UTF-8 decoding, following unicode/utf8 of the Go standard library. -/

/-- Value utf8.RuneError. -/
def runeError : Nat := 0xFFFD

/-- Test for a UTF-8 continuation byte (0x80..0xBF). -/
def contB (b : Nat) : Bool := 0x80 ≤ b && b ≤ 0xBF

/-- Go utf8.RuneStart: true unless the byte is a continuation byte. -/
def runeStart (b : Nat) : Bool := !contB b

/-- Accepted second-byte range of a three-byte sequence (utf8.acceptRanges). -/
def acc3 (b0 b1 : Nat) : Bool :=
  if b0 = 0xE0 then 0xA0 ≤ b1 && b1 ≤ 0xBF
  else if b0 = 0xED then 0x80 ≤ b1 && b1 ≤ 0x9F
  else contB b1

/-- Accepted second-byte range of a four-byte sequence (utf8.acceptRanges). -/
def acc4 (b0 b1 : Nat) : Bool :=
  if b0 = 0xF0 then 0x90 ≤ b1 && b1 ≤ 0xBF
  else if b0 = 0xF4 then 0x80 ≤ b1 && b1 ≤ 0x8F
  else contB b1

/-- Model of utf8.DecodeRune: decode the first rune of the byte list,
returning the rune value and the number of bytes consumed.  Malformed
or truncated input yields (RuneError, 1); empty input (RuneError, 0). -/
def decodeRune : List Nat → Nat × Nat
  | [] => (runeError, 0)
  | b0 :: rest =>
    if b0 < 0x80 then (b0, 1)
    else if b0 < 0xC2 then (runeError, 1)
    else if b0 < 0xE0 then
      match rest with
      | b1 :: _ =>
        if contB b1 then ((b0 - 0xC0) * 0x40 + (b1 - 0x80), 2) else (runeError, 1)
      | _ => (runeError, 1)
    else if b0 < 0xF0 then
      match rest with
      | b1 :: b2 :: _ =>
        if acc3 b0 b1 && contB b2 then
          ((b0 - 0xE0) * 0x1000 + (b1 - 0x80) * 0x40 + (b2 - 0x80), 3)
        else (runeError, 1)
      | _ => (runeError, 1)
    else if b0 < 0xF5 then
      match rest with
      | b1 :: b2 :: b3 :: _ =>
        if acc4 b0 b1 && contB b2 && contB b3 then
          ((b0 - 0xF0) * 0x40000 + (b1 - 0x80) * 0x1000 + (b2 - 0x80) * 0x40 + (b3 - 0x80), 4)
        else (runeError, 1)
      | _ => (runeError, 1)
    else (runeError, 1)

/-- Backward scan of utf8.DecodeLastRune: given the bytes before the
last one in reversed order, find how many of them (at most 3) must be
included to reach a byte that can start a rune. -/
def backScan : List Nat → Option Nat
  | [] => none
  | c1 :: cs =>
    if runeStart c1 then some 1
    else
      match cs with
      | [] => none
      | c2 :: cs2 =>
        if runeStart c2 then some 2
        else
          match cs2 with
          | [] => none
          | c3 :: _ => if runeStart c3 then some 3 else none

/-- Model of utf8.DecodeLastRune: decode the rune ending at the end of
the byte list, returning the rune value and its width in bytes. -/
def decodeLastRune (p : List Nat) : Nat × Nat :=
  match p.reverse with
  | [] => (runeError, 0)
  | b :: rest =>
    if b < 0x80 then (b, 1)
    else
      match backScan rest with
      | some k =>
        let win := ((b :: rest).take (k + 1)).reverse
        let rd := decodeRune win
        if rd.2 = k + 1 then rd else (runeError, 1)
      | none =>
        if p.length ≤ 4 then
          let rd := decodeRune p
          if rd.2 = p.length then rd else (runeError, 1)
        else (runeError, 1)

/-- One step of utf8.RuneCount, with explicit fuel (the list length
suffices, as every step consumes at least one byte). -/
def runeCountAux : Nat → List Nat → Nat
  | 0, _ => 0
  | _, [] => 0
  | fuel + 1, b :: bs =>
    if b < 0x80 then 1 + runeCountAux fuel bs
    else 1 + runeCountAux fuel ((b :: bs).drop (decodeRune (b :: bs)).2)

/-- Model of utf8.RuneCount. -/
def utf8RuneCount (p : List Nat) : Nat := runeCountAux p.length p

/-! The line-length gap buffer of line-buffer.go. -/

/-- Constant defaultCapacity of gap-buffer.go. -/
def defaultCapacity : Nat := 1024

/-- Constant lineCapFactor of gap-buffer.go. -/
def lineCapFactor : Nat := 10

/-- Constant minLineCap of gap-buffer.go. -/
def minLineCap : Nat := 10

/-- Constant growFactor of gap-buffer.go. -/
def growFactor : Nat := 2

/-- The lineBuffer struct of line-buffer.go: a gap buffer of per-line
byte lengths.  The field end of the Go struct is called end_ here. -/
structure lineBuffer where
  start : Nat
  end_ : Nat
  lengths : List Int
deriving Repr, DecidableEq

/-- Method size of lineBuffer. -/
def lineBuffer.size (l : lineBuffer) : Nat := l.lengths.length

/-- Method lastIdx of lineBuffer (an int in Go, hence an integer: it
is -1 for an empty slice). -/
def lineBuffer.lastIdx (l : lineBuffer) : Int := (l.size : Int) - 1

/-- Method up of lineBuffer: l.end--; l.lengths[l.end] = l.lengths[l.start]; l.start--. -/
def lineBuffer.up (l : lineBuffer) : lineBuffer :=
  { start := l.start - 1
    end_ := l.end_ - 1
    lengths := l.lengths.set (l.end_ - 1) (l.lengths.getD l.start 0) }

/-- Method upDel of lineBuffer: l.start--. -/
def lineBuffer.upDel (l : lineBuffer) : lineBuffer :=
  { l with start := l.start - 1 }

/-- Method down of lineBuffer: l.start++; l.lengths[l.start] = l.lengths[l.end]; l.end++. -/
def lineBuffer.down (l : lineBuffer) : lineBuffer :=
  { start := l.start + 1
    end_ := l.end_ + 1
    lengths := l.lengths.set (l.start + 1) (l.lengths.getD l.end_ 0) }

/-- Method downDel of lineBuffer: l.end++. -/
def lineBuffer.downDel (l : lineBuffer) : lineBuffer :=
  { l with end_ := l.end_ + 1 }

/-- Method del of lineBuffer: shorten the current line length by b,
doing nothing if the recorded length is already zero. -/
def lineBuffer.del (l : lineBuffer) (b : Int) : lineBuffer :=
  if l.lengths.getD l.start 0 = 0 then l
  else { l with lengths := l.lengths.set l.start (l.lengths.getD l.start 0 - b) }

/-- Model of strings.Cut(s, sep) for the one-byte separator newline:
the part before the first newline, the part after it, and whether a
newline was found. -/
def cut : List Nat → List Nat × List Nat × Bool
  | [] => ([], [], false)
  | b :: rest =>
    if b = nl then ([], rest, true)
    else
      let c := cut rest
      (b :: c.1, c.2.1, c.2.2)

/-- Loop of newlineSplit: keep cutting while the rest is nonempty.
Each cut strictly shrinks the rest, so the length of the initial
string is enough fuel. -/
def newlineSplitLoop : Nat → List Nat → List (List Nat)
  | 0, _ => []
  | fuel + 1, rest =>
    if rest = [] then []
    else
      let c := cut rest
      c.1 :: newlineSplitLoop fuel c.2.1

/-- Function newlineSplit of line-buffer.go. -/
def newlineSplit (str : List Nat) : List (List Nat) :=
  let c := cut str
  c.1 :: newlineSplitLoop str.length c.2.1

/-- Function lineLengths of line-buffer.go: byte lengths of the lines
of the string, newline included, except that the last length counts no
newline (a trailing newline contributes a final length of 0). -/
def lineLengths (str : List Nat) : List Int :=
  let lens := (newlineSplit str).map (fun li => (li.length : Int) + 1)
  if str.getLast? = some nl then lens ++ [0]
  else lens.dropLast ++ [lens.getLastD 0 - 1]

/-- Method grow of lineBuffer. -/
def lineBuffer.grow (l : lineBuffer) : lineBuffer :=
  let tmp : List Int := List.replicate (growFactor * l.size) 0
  let tmp := listCopy tmp 0 (l.lengths.take (l.start + 1))
  let nE := tmp.length - (l.size - l.end_)
  let tmp2 := listCopy tmp nE (l.lengths.drop l.end_)
  { l with end_ := nE, lengths := tmp2 }

/-- Method curLine of lineBuffer. -/
def lineBuffer.curLine (l : lineBuffer) : Nat := l.start + 1

/-- Method curLineLength of lineBuffer. -/
def lineBuffer.curLineLength (l : lineBuffer) : Int := l.lengths.getD l.start 0

/-- Method isLastLine of lineBuffer. -/
def lineBuffer.isLastLine (l : lineBuffer) : Bool := l.end_ == l.size

/-- Method curLineStart of lineBuffer: sum of all line lengths before
the current line. -/
def lineBuffer.curLineStart (l : lineBuffer) : Int :=
  if l.start = 0 then 0 else (l.lengths.take l.start).sum

/-- Method curLineEnd of lineBuffer: sum of all line lengths up to and
including the current line, minus one, except for a zero-length line. -/
def lineBuffer.curLineEnd (l : lineBuffer) : Int :=
  let s := (l.lengths.take (l.start + 1)).sum
  if l.curLineLength = 0 then s else s - 1

/-- Sequential writes l.lengths[i+idx] = vals[idx] of lineBuffer.insert. -/
def writeSeq (dst : List Int) (i : Nat) : List Int → List Int
  | [] => dst
  | v :: vs => writeSeq (dst.set i v) (i + 1) vs

/-- Method insert of lineBuffer: record the line lengths of str,
inserted at absolute byte position pos of the parent buffer. -/
def lineBuffer.insert (l : lineBuffer) (str : List Nat) (pos : Nat) : lineBuffer :=
  if str.length = 0 then l
  else
    let lens := lineLengths str
    let l := if (l.end_ : Int) - l.start < lens.length + 1 then l.grow else l
    let lens := lens.set 0 (lens.getD 0 0 + ((pos : Int) - l.curLineStart))
    let lens := lens.set (lens.length - 1)
      (lens.getD (lens.length - 1) 0 + (l.curLineStart + l.curLineLength - pos))
    { l with
      lengths := writeSeq l.lengths l.start lens
      start := l.start + (lens.length - 1) }

/-- Function newLineBuf of line-buffer.go. -/
def newLineBuf (c : Nat) : lineBuffer :=
  let cR := max (c / lineCapFactor) minLineCap
  { start := 0, end_ := cR, lengths := List.replicate cR 0 }

/-- Function newLineBufStr of line-buffer.go. -/
def newLineBufStr (s : List Nat) (c : Nat) : lineBuffer :=
  (newLineBuf c).insert s 0

/-! The byte-level gap buffer of gap-buffer.go. -/

/-- The GapBuffer struct of gap-buffer.go.  The field end of the Go
struct is called end_ here. -/
structure GapBuffer where
  start : Nat
  end_ : Nat
  wantsCol : Nat
  lines : lineBuffer
  data : List Nat
deriving Repr, DecidableEq

/-- Method String of GapBuffer: the logical content, the bytes before
the gap followed by the bytes after it. -/
def GapBuffer.String (g : GapBuffer) : List Nat :=
  g.data.take g.start ++ g.data.drop g.end_

/-- Method StringPair of GapBuffer: content split at the cursor. -/
def GapBuffer.StringPair (g : GapBuffer) : List Nat × List Nat :=
  (g.data.take g.start, g.data.drop g.end_)

/-- Method StringLength of GapBuffer (Go int arithmetic, hence Int). -/
def GapBuffer.StringLength (g : GapBuffer) : Int :=
  (g.data.length : Int) - ((g.end_ : Int) - (g.start : Int))

/-- Constructor NewCap of gap-buffer.go. -/
def NewCap (size : Nat) : GapBuffer :=
  { start := 0
    end_ := size
    wantsCol := 0
    data := List.replicate size 0
    lines := newLineBuf size }

/-- Constructor New of gap-buffer.go. -/
def New : GapBuffer := NewCap defaultCapacity

/-- Method RuneCol of GapBuffer: number of runes between the start of
the current line and the cursor. -/
def GapBuffer.RuneCol (g : GapBuffer) : Nat :=
  if (g.start : Int) < g.lines.curLineStart then 0
  else utf8RuneCount ((g.data.drop g.lines.curLineStart.toNat).take
    (g.start - g.lines.curLineStart.toNat))

/-- Constructor NewStrCap of gap-buffer.go. -/
def NewStrCap (s : List Nat) (c : Nat) : GapBuffer :=
  let size := max c (s.length * growFactor)
  let dat := listCopy (List.replicate size 0) 0 s
  let sIdx := min size s.length
  let lines := newLineBufStr s size
  let lineStart := lines.curLineStart
  let runeCol :=
    if lineStart < (sIdx : Int) then
      utf8RuneCount ((dat.drop lineStart.toNat).take (sIdx - lineStart.toNat))
    else 0
  { start := sIdx
    end_ := size
    wantsCol := runeCol
    data := dat
    lines := lines }

/-- Constructor NewStr of gap-buffer.go. -/
def NewStr (s : List Nat) : GapBuffer := NewStrCap s defaultCapacity

/-- Method LineLength of GapBuffer. -/
def GapBuffer.LineLength (g : GapBuffer) : Int := g.lines.curLineLength + 1

/-- Method LeftDel of GapBuffer: delete the rune left of the cursor. -/
def GapBuffer.LeftDel (g : GapBuffer) : GapBuffer :=
  if g.start < 1 then g
  else
    let rd := decodeLastRune (g.data.take g.start)
    let g := { g with start := g.start - rd.2 }
    let g :=
      if rd.1 = nl then { g with lines := g.lines.upDel }
      else { g with lines := g.lines.del rd.2 }
    { g with wantsCol := g.RuneCol }

/-- Method RightDel of GapBuffer: delete the rune right of the cursor. -/
def GapBuffer.RightDel (g : GapBuffer) : GapBuffer :=
  if (g.end_ : Int) > (g.data.length : Int) - 1 then g
  else
    let rd := decodeRune (g.data.drop g.end_)
    let g := { g with end_ := g.end_ + rd.2 }
    if rd.1 = nl then { g with lines := g.lines.downDel }
    else { g with lines := g.lines.del rd.2 }

/-- Method LeftMv of GapBuffer: move the cursor one rune to the left. -/
def GapBuffer.LeftMv (g : GapBuffer) : GapBuffer :=
  if g.start < 1 then g
  else
    let rd := decodeLastRune (g.data.take g.start)
    let e := g.end_ - rd.2
    let dat := listCopy g.data e ((g.data.drop (g.start - rd.2)).take rd.2)
    let g := { g with end_ := e, data := dat, start := g.start - rd.2 }
    let g := if rd.1 = nl then { g with lines := g.lines.up } else g
    { g with wantsCol := g.RuneCol }

/-- Method RightMv of GapBuffer: move the cursor one rune to the right. -/
def GapBuffer.RightMv (g : GapBuffer) : GapBuffer :=
  if (g.start : Int) > (g.data.length : Int) - 2 then g
  else if (g.end_ : Int) > (g.data.length : Int) - 1 then g
  else
    let rd := decodeRune (g.data.drop g.end_)
    let dat := listCopy g.data g.start ((g.data.drop g.end_).take rd.2)
    let g := { g with data := dat, start := g.start + rd.2, end_ := g.end_ + rd.2 }
    let g := if rd.1 = nl then { g with lines := g.lines.down } else g
    { g with wantsCol := g.RuneCol }

/-- Cursor-positioning loop of UpMv.  The loop in Go increments
runeCnt on every iteration and stops once it equals wantsCol, so
wantsCol + 2 fuel is always sufficient. -/
def upMvLoop (data : List Nat) (wantsCol : Nat) (maxI : Int) :
    Nat → Nat → Nat → Nat → Nat
  | 0, _, _, newStart => newStart
  | fuel + 1, idx, runeCnt, newStart =>
    if (idx : Int) < maxI + 1 then
      if runeCnt = wantsCol then idx
      else
        let d := (decodeRune (data.drop idx)).2
        upMvLoop data wantsCol maxI fuel (idx + d) (runeCnt + 1) idx
    else newStart

/-- Method UpMv of GapBuffer: move the cursor up one line, keeping the
wanted rune column where possible. -/
def GapBuffer.UpMv (g : GapBuffer) : GapBuffer :=
  if g.lines.curLine = 1 then g
  else
    let lines := g.lines.up
    let lineStart := lines.curLineStart
    let maxI := lines.curLineEnd
    let newStart := upMvLoop g.data g.wantsCol maxI (g.wantsCol + 2)
      lineStart.toNat 0 lineStart.toNat
    let e := g.end_ - (g.start - newStart)
    let dat := listCopy g.data e ((g.data.drop newStart).take (g.start - newStart))
    { g with lines := lines, end_ := e, data := dat, start := newStart }

/-- Scanning loop of DownMv, returning the final idx and runeCnt.  As
in upMvLoop, runeCnt grows by one per iteration and the loop breaks
when it reaches wantsCol, so wantsCol + 2 fuel is always sufficient. -/
def downMvLoop (data : List Nat) (wantsCol : Nat) (e : Nat) :
    Nat → Int → Nat → Int × Nat
  | 0, idx, runeCnt => (idx, runeCnt)
  | fuel + 1, idx, runeCnt =>
    if (e : Int) + idx < (data.length : Int) ∧
        data.getD ((e : Int) + idx).toNat 0 ≠ nl then
      if runeCnt = wantsCol then (idx, runeCnt)
      else
        let d := (decodeRune (data.drop ((e : Int) + idx).toNat)).2
        if (e : Int) + idx + d > (data.length : Int) - 1 then (idx, runeCnt)
        else downMvLoop data wantsCol e fuel (idx + d) (runeCnt + 1)
    else (idx, runeCnt)

/-- Method DownMv of GapBuffer: move the cursor down one line, keeping
the wanted rune column where possible. -/
def GapBuffer.DownMv (g : GapBuffer) : GapBuffer :=
  if (g.lines.end_ : Int) > g.lines.lastIdx then g
  else
    let newLine : Int := g.lines.curLineEnd + 1 - g.start
    let newLine :=
      if g.lines.curLineLength = 0 ∨ g.lines.isLastLine = true then newLine - 1
      else newLine
    let p := downMvLoop g.data g.wantsCol g.end_ (g.wantsCol + 2) newLine 0
    let idx := p.1
    let runeCnt := p.2
    let dat := listCopy g.data g.start ((g.data.drop g.end_).take idx.toNat)
    let s := ((g.start : Int) + idx).toNat
    let e := ((g.end_ : Int) + idx).toNat
    let s2 := if idx = 0 then s + 1 else s
    let e2 := if idx = 0 then e + 1 else e
    let atEnd : Bool :=
      decide ((e2 : Int) = (dat.length : Int) - 1) && decide (runeCnt < g.wantsCol)
    let dat2 := if atEnd then dat.set s2 (dat.getD e2 0) else dat
    let s3 := if atEnd then s2 + 1 else s2
    let e3 := if atEnd then e2 + 1 else e2
    { g with data := dat2, start := s3, end_ := e3, lines := g.lines.down }

/-- Method grow of GapBuffer: double the backing array, keeping the
content halves at the two ends. -/
def GapBuffer.grow (g : GapBuffer) : GapBuffer :=
  let tmp : List Nat := List.replicate (g.data.length * growFactor) 0
  let tmp := listCopy tmp 0 (g.data.take g.start)
  let nE := tmp.length - (g.data.length - g.end_)
  let tmp2 := listCopy tmp nE (g.data.drop g.end_)
  { g with end_ := nE, data := tmp2 }

/-- Method Insert of GapBuffer: insert the string at the cursor, first
growing once if the gap cannot hold it plus one byte of slack. -/
def GapBuffer.Insert (g : GapBuffer) (str : List Nat) : GapBuffer :=
  let g := if (g.end_ : Int) - g.start < (str.length : Int) + 1 then g.grow else g
  let lines := g.lines.insert str g.start
  let l := copyLen g.data g.start str
  let dat := listCopy g.data g.start str
  let g := { g with lines := lines, data := dat, start := g.start + l }
  { g with wantsCol := g.RuneCol }

/-! Specification-side helper definitions. -/

/-- The line lengths the index currently records: the slots up to and
including the current one, followed by the slots after the gap. -/
def recordedLineLengths (l : lineBuffer) : List Int :=
  l.lengths.take (l.start + 1) ++ l.lengths.drop l.end_

/-- Byte string of "Hello\nWorld!". -/
def helloNlWorld : List Nat := [72, 101, 108, 108, 111, 10, 87, 111, 114, 108, 100, 33]

/-- Reachable state used to refute the line-length invariant: build
"ab\ncd", move left twice, delete the newline. -/
def c1Buf : GapBuffer :=
  (((NewStrCap [97, 98, 10, 99, 100] 10).LeftMv).LeftMv).LeftDel

/-- Reachable state violating the gap invariant: a capacity-2 buffer,
filled exactly by one insert, cursor moved left once, then an insert
of five bytes that a single doubling cannot accommodate. -/
def c4Buf : GapBuffer :=
  (((NewCap 2).Insert [97, 98, 99, 100]).LeftMv).Insert [120, 121, 122, 119, 118]

/-- Reachable state on which DownMv corrupts the content: build
"a\nb\nc", move left three times, delete a newline (leaving the line
index understating the merged line), move right once. -/
def c10Buf : GapBuffer :=
  ((((NewStrCap [97, 10, 98, 10, 99] 10).LeftMv).LeftMv).LeftMv).LeftDel.RightMv

/-- Buffer used to refute C7: after building "Hello\nWorld!" the
desired column is 6; moving up clamps the cursor to rune column 5 of
the shorter first line, and deleting the newline to the right leaves
wantsCol untouched at 6 while the rune column is 5. -/
def c7Buf : GapBuffer := ((NewStrCap helloNlWorld 10).UpMv).RightDel

/-- Buffer for the witness of c7_wants_col_discipline: content "ab"
with the cursor between the two bytes, so no boundary guard fires. -/
def c7WBuf : GapBuffer := (NewStrCap [97, 98] 10).LeftMv

/-- Recogniser of a single well-formed UTF-8 rune encoding (the byte
sequences utf8.DecodeRune accepts in full). -/
def encBytes : List Nat → Bool
  | [b] => b < 0x80
  | [b0, b1] => (0xC2 ≤ b0 && b0 ≤ 0xDF) && contB b1
  | [b0, b1, b2] => (0xE0 ≤ b0 && b0 ≤ 0xEF) && acc3 b0 b1 && contB b2
  | [b0, b1, b2, b3] =>
    (0xF0 ≤ b0 && b0 ≤ 0xF4) && acc4 b0 b1 && contB b2 && contB b3
  | _ => false

/-- Intermediate-state description for the cursor round-trip: h is the
buffer g after the chunks of es2 (each one encoded rune) have been
moved from the left of the cursor to the right of the gap, es1 being
the chunks still left of the cursor.  The logical content is unchanged
and the line index has shifted in lockstep, its live slots intact. -/
def MovedState (g : GapBuffer) (l0 : List Nat) (es1 es2 : List (List Nat))
    (h : GapBuffer) : Prop :=
  h.start = l0.length + es1.join.length ∧
  h.end_ = h.start + (g.end_ - g.start) ∧
  h.end_ ≤ h.data.length ∧
  h.data.length = g.data.length ∧
  h.data.take h.start = l0 ++ es1.join ∧
  h.data.drop h.end_ = es2.join ++ g.data.drop g.end_ ∧
  h.lines.start + es2.count [nl] = g.lines.start ∧
  h.lines.end_ + es2.count [nl] = g.lines.end_ ∧
  h.lines.lengths.length = g.lines.lengths.length ∧
  recordedLineLengths h.lines = recordedLineLengths g.lines

/-- Buffer with a zero-byte gap, reached from a constructor by a
single insert that exactly filled the grown store. -/
def c6Buf : GapBuffer := (NewCap 2).Insert [97, 98, 99, 100]

/-- Buffer for the round-trip witness: content "a\nb", cursor at the
end. -/
def c6WBuf : GapBuffer := NewStrCap [97, nl, 98] 10

/-- C1.  The line index is supposed to record, for every line, the
number of content bytes of that line (newline included, except for the
last line).  After deleteLeft removes a newline, upDel merely discards
one slot: the surviving slot still counts the deleted newline and
drops the following line's bytes, so the recorded lengths no longer
match the content.  Concretely, "ab\ncd" with the cursor moved to just
after the newline, then deleteLeft, yields content "abcd" (one line of
4 bytes) while the index records a single line of length 3. -/
theorem c1_merge_breaks_line_invariant :
    recordedLineLengths c1Buf.lines = [3] ∧
      c1Buf.String = [97, 98, 99, 100] ∧
      lineLengths c1Buf.String = [4] ∧
      recordedLineLengths c1Buf.lines ≠ lineLengths c1Buf.String := by
  refine ⟨by decide, by decide, by decide, by decide⟩

/-- C2.  Insert is specified to produce l + s + r, growing as needed so
that capacity exhaustion is never observable.  The code grows at most
once, and a single doubling of a zero-capacity buffer is still zero
bytes, so inserting "a" into a NewCap 0 buffer silently drops the
inserted text: the content stays empty instead of becoming "a". -/
theorem c2_insert_drops_text :
    ((NewCap 0).Insert [97]).String = [] ∧
      (NewCap 0).StringPair.1 ++ [97] ++ (NewCap 0).StringPair.2 = [97] := by
  refine ⟨by decide, by decide⟩

/-- C4.  The gap invariant 0 <= gapStart <= gapEnd <= len(storage) is
violated in a state reachable from NewCap 2 by Insert, LeftMv, Insert:
the second insert does not fit even after the single grow, and the
copy advances gapStart past gapEnd. -/
theorem c4_reachable_state_violates_gap_invariant :
    c4Buf.start = 8 ∧ c4Buf.end_ = 7 ∧ c4Buf.data.length = 8 ∧
      ¬ c4Buf.start ≤ c4Buf.end_ := by
  refine ⟨by decide, by decide, by decide, by decide⟩

/-- C8.  Scenario F of the specification (and TestLineLength of the
repository's own test suite) expects currentLineLength() == 5 after
createFromText("Hello\nWorld!") and moveCursorUp().  The code records
6 bytes for the line "Hello\n" and LineLength returns
curLineLength() + 1, so it returns 7, not 5. -/
theorem c8_line_length_is_seven_not_five :
    (((NewStr helloNlWorld).UpMv).LineLength = 7) ∧
      ((NewStr helloNlWorld).UpMv).String = helloNlWorld := by
  refine ⟨by decide, by decide⟩

/-- C10.  Vertical cursor motion is supposed to leave the logical
content unchanged.  On a reachable state whose line index understates
the current line (after a newline deletion), DownMv takes the idx == 0
path, which advances both gap bounds without copying: a stale gap byte
enters the content and the newline leaves it.  The content changes
from "ab\nc" to "abbc". -/
theorem c10_down_mv_corrupts_content :
    c10Buf.String = [97, 98, 10, 99] ∧
      (c10Buf.DownMv).String = [97, 98, 98, 99] ∧
      (c10Buf.DownMv).String ≠ c10Buf.String := by
  refine ⟨by decide, by decide, by decide⟩

/-- C3.  Splitting the content at the cursor and concatenating the two
halves gives exactly the content string, and the two lengths sum to
contentLength(), for every buffer state on which the queries are
defined (both gap bounds within the storage, which is exactly the
precondition for the Go slicing in String, StringPair and
StringLength to return). -/
theorem c3_split_roundtrip (g : GapBuffer)
    (h1 : g.start ≤ g.data.length) (h2 : g.end_ ≤ g.data.length) :
    g.StringPair.1 ++ g.StringPair.2 = g.String ∧
      (g.StringPair.1.length : Int) + (g.StringPair.2.length : Int) = g.StringLength := by
  constructor
  · rfl
  · simp only [GapBuffer.StringPair, GapBuffer.StringLength, List.length_take,
      List.length_drop]
    omega

/-- Closed instance of c3_split_roundtrip. -/
theorem c3_split_roundtrip_witness :
    (NewStrCap helloNlWorld 10).start ≤ (NewStrCap helloNlWorld 10).data.length ∧
      (NewStrCap helloNlWorld 10).end_ ≤ (NewStrCap helloNlWorld 10).data.length ∧
      ((NewStrCap helloNlWorld 10).StringPair.1 ++ (NewStrCap helloNlWorld 10).StringPair.2 =
          (NewStrCap helloNlWorld 10).String ∧
        ((NewStrCap helloNlWorld 10).StringPair.1.length : Int) +
            ((NewStrCap helloNlWorld 10).StringPair.2.length : Int) =
          (NewStrCap helloNlWorld 10).StringLength) :=
  ⟨by decide, by decide,
    c3_split_roundtrip (NewStrCap helloNlWorld 10) (by decide) (by decide)⟩

/-- C5.  The four boundary no-ops: moveCursorLeft at position 0,
moveCursorRight at the end of the content, moveCursorUp on line 1 and
moveCursorDown on the last line all leave the whole buffer state
unchanged. -/
theorem c5_boundary_noops (g : GapBuffer) :
    (g.start = 0 → g.LeftMv = g) ∧
      (g.end_ = g.data.length → g.RightMv = g) ∧
      (g.lines.start = 0 → g.UpMv = g) ∧
      (g.lines.end_ = g.lines.size → g.DownMv = g) := by
  refine ⟨fun h => ?_, fun h => ?_, fun h => ?_, fun h => ?_⟩
  · simp [GapBuffer.LeftMv, h]
  · rw [GapBuffer.RightMv]
    split
    · rfl
    · rw [if_pos (by omega)]
  · simp [GapBuffer.UpMv, lineBuffer.curLine, h]
  · rw [GapBuffer.DownMv, if_pos]
    rw [lineBuffer.lastIdx, h]
    omega

/-- Closed instance of c5_boundary_noops: the empty default buffer is
at all four boundaries at once. -/
theorem c5_boundary_noops_witness :
    (NewCap 3).start = 0 ∧
      (NewCap 3).end_ = (NewCap 3).data.length ∧
      (NewCap 3).lines.start = 0 ∧
      (NewCap 3).lines.end_ = (NewCap 3).lines.size ∧
      ((NewCap 3).LeftMv = NewCap 3 ∧ (NewCap 3).RightMv = NewCap 3 ∧
        (NewCap 3).UpMv = NewCap 3 ∧ (NewCap 3).DownMv = NewCap 3) :=
  ⟨by decide, by decide, by decide, by decide,
    ((c5_boundary_noops (NewCap 3)).1 (by decide)),
    ((c5_boundary_noops (NewCap 3)).2.1 (by decide)),
    ((c5_boundary_noops (NewCap 3)).2.2.1 (by decide)),
    ((c5_boundary_noops (NewCap 3)).2.2.2 (by decide))⟩

/-- C9, counterexample.  shortenCurrentLine only skips the decrement
when the recorded length is exactly 0; deleting a two-byte rune from a
line whose recorded length is 1 leaves the recorded length -1, so the
operation can leave the recorded length negative. -/
theorem c9_shorten_goes_negative :
    (lineBuffer.del { start := 0, end_ := 1, lengths := [1] } 2).curLineLength = -1 ∧
      (lineBuffer.del { start := 0, end_ := 1, lengths := [1] } 2).curLineLength < 0 := by
  refine ⟨by decide, by decide⟩

/-- C9, amended.  shortenCurrentLine is a no-op when the recorded
length is 0; otherwise it decrements the recorded length by the byte
width, and the result is non-negative whenever the byte width does not
exceed the recorded length (as is the case for every rune actually
stored in the line). -/
theorem c9_shorten_amended (l : lineBuffer) (b : Int) :
    (l.curLineLength = 0 → l.del b = l) ∧
      (l.curLineLength ≠ 0 → (l.del b).curLineLength = l.curLineLength - b) ∧
      (b ≤ l.curLineLength → 0 ≤ (l.del b).curLineLength) := by
  have hlen : ∀ v : Int, l.curLineLength ≠ 0 →
      (lineBuffer.curLineLength { l with lengths := l.lengths.set l.start v }) = v := by
    intro v hne
    have hin : l.start < l.lengths.length := by
      by_contra hout
      apply hne
      simp [lineBuffer.curLineLength, List.getD_eq_getElem?_getD,
        List.getElem?_eq_none (le_of_not_lt hout)]
    simp [lineBuffer.curLineLength, List.getD_eq_getElem?_getD,
      List.getElem?_set_self, hin]
  refine ⟨fun h => ?_, fun h => ?_, fun h => ?_⟩
  · simp [lineBuffer.del, lineBuffer.curLineLength] at h ⊢
    simp [h]
  · rw [lineBuffer.del, if_neg (by simpa [lineBuffer.curLineLength] using h)]
    exact hlen _ h
  · by_cases h0 : l.curLineLength = 0
    · rw [lineBuffer.del, if_pos (by simpa [lineBuffer.curLineLength] using h0)]
      omega
    · rw [lineBuffer.del, if_neg (by simpa [lineBuffer.curLineLength] using h0)]
      rw [hlen _ h0]
      simp only [lineBuffer.curLineLength] at h
      omega

/-- Closed instance of c9_shorten_amended. -/
theorem c9_shorten_amended_witness :
    ((lineBuffer.curLineLength { start := 0, end_ := 1, lengths := ([] : List Int) } = 0) ∧
        lineBuffer.del { start := 0, end_ := 1, lengths := ([] : List Int) } 1 =
          { start := 0, end_ := 1, lengths := ([] : List Int) }) ∧
      ((lineBuffer.curLineLength { start := 0, end_ := 1, lengths := [3] } ≠ 0) ∧
          (lineBuffer.del { start := 0, end_ := 1, lengths := [3] } 1).curLineLength =
            lineBuffer.curLineLength { start := 0, end_ := 1, lengths := [3] } - 1) ∧
        ((1 : Int) ≤ lineBuffer.curLineLength { start := 0, end_ := 1, lengths := [3] } ∧
          0 ≤ (lineBuffer.del { start := 0, end_ := 1, lengths := [3] } 1).curLineLength) :=
  ⟨⟨by decide, (c9_shorten_amended { start := 0, end_ := 1, lengths := [] } 1).1 (by decide)⟩,
    ⟨by decide, (c9_shorten_amended { start := 0, end_ := 1, lengths := [3] } 1).2.1 (by decide)⟩,
    ⟨by decide, (c9_shorten_amended { start := 0, end_ := 1, lengths := [3] } 1).2.2 (by decide)⟩⟩

/-- C7, counterexample.  RightDel never assigns wantsCol, so after a
vertical move followed by deleteRight the desired column (6) differs
from the cursor's rune column (5): deleteRight is not among the
operations that set the desired column. -/
theorem c7_right_del_keeps_wants_col :
    c7Buf.wantsCol = 6 ∧ c7Buf.RuneCol = 5 ∧ c7Buf.wantsCol ≠ c7Buf.RuneCol := by
  refine ⟨by decide, by decide, by decide⟩

/-- C7, amended.  Whenever they actually move or edit (their boundary
guards do not fire), moveCursorLeft, moveCursorRight and deleteLeft
set wantsCol to the cursor's rune column, and insert always does;
deleteRight, moveCursorUp and moveCursorDown leave wantsCol exactly as
horizontal motion last set it. -/
theorem c7_wants_col_discipline (g : GapBuffer) (s : List Nat) :
    (1 ≤ g.start → (g.LeftMv).wantsCol = (g.LeftMv).RuneCol) ∧
      (¬ (g.start : Int) > (g.data.length : Int) - 2 →
        ¬ (g.end_ : Int) > (g.data.length : Int) - 1 →
        (g.RightMv).wantsCol = (g.RightMv).RuneCol) ∧
      (1 ≤ g.start → (g.LeftDel).wantsCol = (g.LeftDel).RuneCol) ∧
      ((g.Insert s).wantsCol = (g.Insert s).RuneCol) ∧
      ((g.UpMv).wantsCol = g.wantsCol) ∧
      ((g.DownMv).wantsCol = g.wantsCol) ∧
      ((g.RightDel).wantsCol = g.wantsCol) := by
  refine ⟨fun h => ?_, fun h1 h2 => ?_, fun h => ?_, ?_, ?_, ?_, ?_⟩
  · rw [GapBuffer.LeftMv, if_neg (by omega)]
    rfl
  · rw [GapBuffer.RightMv, if_neg h1, if_neg h2]
    rfl
  · rw [GapBuffer.LeftDel, if_neg (by omega)]
    rfl
  · rfl
  · rw [GapBuffer.UpMv]
    split <;> rfl
  · rw [GapBuffer.DownMv]
    split <;> rfl
  · rw [GapBuffer.RightDel]
    split
    · rfl
    · dsimp only
      split <;> rfl

/-- Closed instance of c7_wants_col_discipline. -/
theorem c7_wants_col_discipline_witness :
    ((c7WBuf.LeftMv).wantsCol = (c7WBuf.LeftMv).RuneCol) ∧
      ((c7WBuf.RightMv).wantsCol = (c7WBuf.RightMv).RuneCol) ∧
      ((c7WBuf.LeftDel).wantsCol = (c7WBuf.LeftDel).RuneCol) ∧
      ((c7WBuf.Insert [99]).wantsCol = (c7WBuf.Insert [99]).RuneCol) ∧
      ((c7WBuf.UpMv).wantsCol = c7WBuf.wantsCol) ∧
      ((c7WBuf.DownMv).wantsCol = c7WBuf.wantsCol) ∧
      ((c7WBuf.RightDel).wantsCol = c7WBuf.wantsCol) :=
  ⟨(c7_wants_col_discipline c7WBuf [99]).1 (by decide),
    (c7_wants_col_discipline c7WBuf [99]).2.1 (by decide) (by decide),
    (c7_wants_col_discipline c7WBuf [99]).2.2.1 (by decide),
    (c7_wants_col_discipline c7WBuf [99]).2.2.2.1,
    (c7_wants_col_discipline c7WBuf [99]).2.2.2.2.1,
    (c7_wants_col_discipline c7WBuf [99]).2.2.2.2.2.1,
    (c7_wants_col_discipline c7WBuf [99]).2.2.2.2.2.2⟩

/-! UTF-8 chunk lemmas used for the cursor round-trip property. -/

theorem contB_range {b : Nat} (h : contB b = true) : 0x80 ≤ b ∧ b ≤ 0xBF := by
  simpa [contB] using h

theorem acc3_elim {b0 b1 : Nat} (h : acc3 b0 b1 = true) :
    0x80 ≤ b1 ∧ b1 ≤ 0xBF ∧ (b0 = 0xE0 → 0xA0 ≤ b1) := by
  unfold acc3 at h
  by_cases h0 : b0 = 0xE0
  · rw [if_pos h0] at h
    simp only [Bool.and_eq_true, decide_eq_true_eq] at h
    exact ⟨by omega, by omega, fun _ => h.1⟩
  · rw [if_neg h0] at h
    by_cases h1 : b0 = 0xED
    · rw [if_pos h1] at h
      simp only [Bool.and_eq_true, decide_eq_true_eq] at h
      exact ⟨by omega, by omega, fun hc => absurd hc h0⟩
    · rw [if_neg h1] at h
      have := contB_range h
      exact ⟨this.1, this.2, fun hc => absurd hc h0⟩

theorem acc4_elim {b0 b1 : Nat} (h : acc4 b0 b1 = true) :
    0x80 ≤ b1 ∧ b1 ≤ 0xBF ∧ (b0 = 0xF0 → 0x90 ≤ b1) := by
  unfold acc4 at h
  by_cases h0 : b0 = 0xF0
  · rw [if_pos h0] at h
    simp only [Bool.and_eq_true, decide_eq_true_eq] at h
    exact ⟨by omega, by omega, fun _ => h.1⟩
  · rw [if_neg h0] at h
    by_cases h1 : b0 = 0xF4
    · rw [if_pos h1] at h
      simp only [Bool.and_eq_true, decide_eq_true_eq] at h
      exact ⟨by omega, by omega, fun hc => absurd hc h0⟩
    · rw [if_neg h1] at h
      have := contB_range h
      exact ⟨this.1, this.2, fun hc => absurd hc h0⟩

/-- Shape analysis of a well-formed rune encoding. -/
theorem encBytes_cases {e : List Nat} (he : encBytes e = true) :
    (∃ b, e = [b] ∧ b < 0x80) ∨
      (∃ b0 b1, e = [b0, b1] ∧ 0xC2 ≤ b0 ∧ b0 ≤ 0xDF ∧ contB b1 = true) ∨
      (∃ b0 b1 b2, e = [b0, b1, b2] ∧ 0xE0 ≤ b0 ∧ b0 ≤ 0xEF ∧
        acc3 b0 b1 = true ∧ contB b2 = true) ∨
      (∃ b0 b1 b2 b3, e = [b0, b1, b2, b3] ∧ 0xF0 ≤ b0 ∧ b0 ≤ 0xF4 ∧
        acc4 b0 b1 = true ∧ contB b2 = true ∧ contB b3 = true) := by
  match e with
  | [] => simp [encBytes] at he
  | [b] =>
    simp only [encBytes, decide_eq_true_eq] at he
    exact Or.inl ⟨b, rfl, he⟩
  | [b0, b1] =>
    simp only [encBytes, Bool.and_eq_true, decide_eq_true_eq] at he
    exact Or.inr (Or.inl ⟨b0, b1, rfl, he.1.1, he.1.2, he.2⟩)
  | [b0, b1, b2] =>
    simp only [encBytes, Bool.and_eq_true, decide_eq_true_eq] at he
    exact Or.inr (Or.inr (Or.inl ⟨b0, b1, b2, rfl, he.1.1.1, he.1.1.2, he.1.2, he.2⟩))
  | [b0, b1, b2, b3] =>
    simp only [encBytes, Bool.and_eq_true, decide_eq_true_eq] at he
    exact Or.inr (Or.inr (Or.inr
      ⟨b0, b1, b2, b3, rfl, he.1.1.1.1, he.1.1.1.2, he.1.1.2, he.1.2, he.2⟩))
  | _ :: _ :: _ :: _ :: _ :: _ => simp [encBytes] at he

theorem encBytes_pos {e : List Nat} (he : encBytes e = true) : 1 ≤ e.length := by
  rcases encBytes_cases he with ⟨b, rfl, _⟩ | ⟨b0, b1, rfl, _⟩ |
    ⟨b0, b1, b2, rfl, _⟩ | ⟨b0, b1, b2, b3, rfl, _⟩ <;> simp

/-- Decoding a complete encoding followed by anything yields the same
result as decoding the encoding alone: UTF-8 decoding is determined by
the first sequence. -/
theorem decodeRune_append {e : List Nat} (rest : List Nat) (he : encBytes e = true) :
    decodeRune (e ++ rest) = decodeRune e := by
  rcases encBytes_cases he with ⟨b, rfl, hb⟩ | ⟨b0, b1, rfl, h1, h2, h3⟩ |
    ⟨b0, b1, b2, rfl, h1, h2, h3, h4⟩ | ⟨b0, b1, b2, b3, rfl, h1, h2, h3, h4, h5⟩
  · simp [decodeRune, hb]
  · have c1 : ¬ b0 < 0x80 := by omega
    have c2 : ¬ b0 < 0xC2 := by omega
    have c3 : b0 < 0xE0 := by omega
    simp [decodeRune, c1, c2, c3, h3]
  · have c1 : ¬ b0 < 0x80 := by omega
    have c2 : ¬ b0 < 0xC2 := by omega
    have c3 : ¬ b0 < 0xE0 := by omega
    have c4 : b0 < 0xF0 := by omega
    simp [decodeRune, c1, c2, c3, c4, h3, h4]
  · have c1 : ¬ b0 < 0x80 := by omega
    have c2 : ¬ b0 < 0xC2 := by omega
    have c3 : ¬ b0 < 0xE0 := by omega
    have c4 : ¬ b0 < 0xF0 := by omega
    have c5 : b0 < 0xF5 := by omega
    simp [decodeRune, c1, c2, c3, c4, c5, h3, h4, h5]

/-- A complete encoding decodes with its own length as the width. -/
theorem decodeRune_enc_len {e : List Nat} (he : encBytes e = true) :
    (decodeRune e).2 = e.length := by
  rcases encBytes_cases he with ⟨b, rfl, hb⟩ | ⟨b0, b1, rfl, h1, h2, h3⟩ |
    ⟨b0, b1, b2, rfl, h1, h2, h3, h4⟩ | ⟨b0, b1, b2, b3, rfl, h1, h2, h3, h4, h5⟩
  · simp [decodeRune, hb]
  · have c1 : ¬ b0 < 0x80 := by omega
    have c2 : ¬ b0 < 0xC2 := by omega
    have c3 : b0 < 0xE0 := by omega
    simp [decodeRune, c1, c2, c3, h3]
  · have c1 : ¬ b0 < 0x80 := by omega
    have c2 : ¬ b0 < 0xC2 := by omega
    have c3 : ¬ b0 < 0xE0 := by omega
    have c4 : b0 < 0xF0 := by omega
    simp [decodeRune, c1, c2, c3, c4, h3, h4]
  · have c1 : ¬ b0 < 0x80 := by omega
    have c2 : ¬ b0 < 0xC2 := by omega
    have c3 : ¬ b0 < 0xE0 := by omega
    have c4 : ¬ b0 < 0xF0 := by omega
    have c5 : b0 < 0xF5 := by omega
    simp [decodeRune, c1, c2, c3, c4, c5, h3, h4, h5]

/-- The decoded value of a complete encoding is the newline exactly
for the one-byte encoding of the newline itself (multi-byte encodings
decode to values of at least 0x80). -/
theorem decodeRune_nl_iff {e : List Nat} (he : encBytes e = true) :
    ((decodeRune e).1 = nl ↔ e = [nl]) := by
  rcases encBytes_cases he with ⟨b, rfl, hb⟩ | ⟨b0, b1, rfl, h1, h2, h3⟩ |
    ⟨b0, b1, b2, rfl, h1, h2, h3, h4⟩ | ⟨b0, b1, b2, b3, rfl, h1, h2, h3, h4, h5⟩
  · simp [decodeRune, hb, nl]
  · have c1 : ¬ b0 < 0x80 := by omega
    have c2 : ¬ b0 < 0xC2 := by omega
    have c3 : b0 < 0xE0 := by omega
    have hr := contB_range h3
    simp only [decodeRune, c1, c2, c3, if_neg, if_pos, if_false, if_true]
    simp only [if_neg c1, if_neg c2, if_pos c3, h3, if_pos]
    constructor
    · intro hv
      exfalso
      simp only [nl] at hv
      omega
    · intro hv
      simp at hv
  · have c1 : ¬ b0 < 0x80 := by omega
    have c2 : ¬ b0 < 0xC2 := by omega
    have c3 : ¬ b0 < 0xE0 := by omega
    have c4 : b0 < 0xF0 := by omega
    have hr := acc3_elim h3
    have hr2 := contB_range h4
    simp only [decodeRune, if_neg c1, if_neg c2, if_neg c3, if_pos c4, h3, h4,
      Bool.and_self, if_pos]
    constructor
    · intro hv
      exfalso
      simp only [nl] at hv
      rcases hr with ⟨ha, hb', hc⟩
      by_cases h0 : b0 = 0xE0
      · have := hc h0
        omega
      · have : 0xE1 ≤ b0 := by omega
        omega
    · intro hv
      simp at hv
  · have c1 : ¬ b0 < 0x80 := by omega
    have c2 : ¬ b0 < 0xC2 := by omega
    have c3 : ¬ b0 < 0xE0 := by omega
    have c4 : ¬ b0 < 0xF0 := by omega
    have c5 : b0 < 0xF5 := by omega
    have hr := acc4_elim h3
    have hr2 := contB_range h4
    have hr3 := contB_range h5
    simp only [decodeRune, if_neg c1, if_neg c2, if_neg c3, if_neg c4, if_pos c5,
      h3, h4, h5, Bool.and_self, if_pos]
    constructor
    · intro hv
      exfalso
      simp only [nl] at hv
      rcases hr with ⟨ha, hb', hc⟩
      by_cases h0 : b0 = 0xF0
      · have := hc h0
        omega
      · have : 0xF1 ≤ b0 := by omega
        omega
    · intro hv
      simp at hv

/-- Backward decoding finds exactly the final complete encoding, no
matter what precedes it. -/
theorem decodeLastRune_append {l e : List Nat} (he : encBytes e = true) :
    decodeLastRune (l ++ e) = decodeRune e := by
  rcases encBytes_cases he with ⟨b, rfl, hb⟩ | ⟨b0, b1, rfl, h1, h2, h3⟩ |
    ⟨b0, b1, b2, rfl, h1, h2, h3, h4⟩ | ⟨b0, b1, b2, b3, rfl, h1, h2, h3, h4, h5⟩
  · rw [decodeLastRune]
    simp only [List.reverse_append, List.reverse_cons, List.reverse_nil,
      List.nil_append, List.cons_append]
    simp [decodeRune, hb]
  · have hcb : contB b0 = false := by
      simp only [contB, Bool.and_eq_false_iff, decide_eq_false_iff_not]
      right
      omega
    have hb1 := contB_range h3
    have c1 : ¬ b1 < 0x80 := by omega
    rw [decodeLastRune]
    simp only [List.reverse_append, List.reverse_cons, List.reverse_nil,
      List.nil_append, List.cons_append]
    simp only [if_neg c1, backScan, runeStart, hcb, Bool.not_false, if_pos]
    have hd := decodeRune_enc_len he
    simp only [List.take, List.reverse_cons, List.reverse_nil, List.nil_append,
      List.cons_append]
    simp only [hd]
    simp
  · have hcb0 : contB b0 = false := by
      simp only [contB, Bool.and_eq_false_iff, decide_eq_false_iff_not]
      right
      omega
    have hb1 := acc3_elim h3
    have hcb1 : contB b1 = true := by
      simp only [contB, Bool.and_eq_true, decide_eq_true_eq]
      exact ⟨hb1.1, hb1.2.1⟩
    have hb2 := contB_range h4
    have c1 : ¬ b2 < 0x80 := by omega
    rw [decodeLastRune]
    simp only [List.reverse_append, List.reverse_cons, List.reverse_nil,
      List.nil_append, List.cons_append]
    simp only [if_neg c1, backScan, runeStart, hcb0, hcb1, Bool.not_false,
      Bool.not_true, if_pos, if_neg, Bool.false_eq_true, if_false]
    have hd := decodeRune_enc_len he
    simp only [List.take, List.reverse_cons, List.reverse_nil, List.nil_append,
      List.cons_append]
    simp only [hd]
    simp
  · have hcb0 : contB b0 = false := by
      simp only [contB, Bool.and_eq_false_iff, decide_eq_false_iff_not]
      right
      omega
    have hb1 := acc4_elim h3
    have hcb1 : contB b1 = true := by
      simp only [contB, Bool.and_eq_true, decide_eq_true_eq]
      exact ⟨hb1.1, hb1.2.1⟩
    have hb2 := contB_range h4
    have hb3 := contB_range h5
    have c1 : ¬ b3 < 0x80 := by omega
    rw [decodeLastRune]
    simp only [List.reverse_append, List.reverse_cons, List.reverse_nil,
      List.nil_append, List.cons_append]
    simp only [if_neg c1, backScan, runeStart, hcb0, hcb1, h4, Bool.not_false,
      Bool.not_true, if_pos, if_neg, Bool.false_eq_true, if_false]
    have hd := decodeRune_enc_len he
    simp only [List.take, List.reverse_cons, List.reverse_nil, List.nil_append,
      List.cons_append]
    simp only [hd]
    simp

/-! List helpers for reasoning about the copy operations. -/

theorem listCopy_length {α : Type} (dst : List α) (i : Nat) (src : List α) :
    (listCopy dst i src).length = dst.length := by
  simp only [listCopy, List.length_append, List.length_take, List.length_drop]
  omega

theorem listCopy_eq {α : Type} {dst src : List α} {i : Nat}
    (h : i + src.length ≤ dst.length) :
    listCopy dst i src = dst.take i ++ src ++ dst.drop (i + src.length) := by
  simp only [listCopy]
  rw [show src.take (dst.length - i) = src from List.take_of_length_le (by omega)]

theorem take_append_le {α : Type} {A B : List α} {m : Nat} (h : m ≤ A.length) :
    (A ++ B).take m = A.take m := by
  rw [List.take_append_eq_append_take, Nat.sub_eq_zero_of_le h, List.take_zero,
    List.append_nil]

theorem drop_append_le {α : Type} {A B : List α} {m : Nat} (h : m ≤ A.length) :
    (A ++ B).drop m = A.drop m ++ B := by
  rw [List.drop_append_eq_append_drop, Nat.sub_eq_zero_of_le h, List.drop_zero]

theorem take_append_exact {α : Type} {A B : List α} {m : Nat} (h : A.length = m) :
    (A ++ B).take m = A := by
  subst h
  exact List.take_left A B

theorem drop_append_exact {α : Type} {A B : List α} {m : Nat} (h : A.length = m) :
    (A ++ B).drop m = B := by
  subst h
  exact List.drop_left A B

/-! Projection lemmas describing the cursor moves in closed form. -/

theorem LeftMv_start (g : GapBuffer) (hg : ¬ g.start < 1) :
    (g.LeftMv).start = g.start - (decodeLastRune (g.data.take g.start)).2 := by
  rw [GapBuffer.LeftMv, if_neg hg]
  dsimp only
  split <;> rfl

theorem LeftMv_end (g : GapBuffer) (hg : ¬ g.start < 1) :
    (g.LeftMv).end_ = g.end_ - (decodeLastRune (g.data.take g.start)).2 := by
  rw [GapBuffer.LeftMv, if_neg hg]
  dsimp only
  split <;> rfl

theorem LeftMv_data (g : GapBuffer) (hg : ¬ g.start < 1) :
    (g.LeftMv).data =
      listCopy g.data (g.end_ - (decodeLastRune (g.data.take g.start)).2)
        ((g.data.drop (g.start - (decodeLastRune (g.data.take g.start)).2)).take
          (decodeLastRune (g.data.take g.start)).2) := by
  rw [GapBuffer.LeftMv, if_neg hg]
  dsimp only
  split <;> rfl

theorem LeftMv_lines (g : GapBuffer) (hg : ¬ g.start < 1) :
    (g.LeftMv).lines =
      if (decodeLastRune (g.data.take g.start)).1 = nl then g.lines.up else g.lines := by
  rw [GapBuffer.LeftMv, if_neg hg]
  dsimp only
  split <;> rfl

theorem RightMv_start (g : GapBuffer) (hg1 : ¬ (g.start : Int) > (g.data.length : Int) - 2)
    (hg2 : ¬ (g.end_ : Int) > (g.data.length : Int) - 1) :
    (g.RightMv).start = g.start + (decodeRune (g.data.drop g.end_)).2 := by
  rw [GapBuffer.RightMv, if_neg hg1, if_neg hg2]
  dsimp only
  split <;> rfl

theorem RightMv_end (g : GapBuffer) (hg1 : ¬ (g.start : Int) > (g.data.length : Int) - 2)
    (hg2 : ¬ (g.end_ : Int) > (g.data.length : Int) - 1) :
    (g.RightMv).end_ = g.end_ + (decodeRune (g.data.drop g.end_)).2 := by
  rw [GapBuffer.RightMv, if_neg hg1, if_neg hg2]
  dsimp only
  split <;> rfl

theorem RightMv_data (g : GapBuffer) (hg1 : ¬ (g.start : Int) > (g.data.length : Int) - 2)
    (hg2 : ¬ (g.end_ : Int) > (g.data.length : Int) - 1) :
    (g.RightMv).data =
      listCopy g.data g.start
        ((g.data.drop g.end_).take (decodeRune (g.data.drop g.end_)).2) := by
  rw [GapBuffer.RightMv, if_neg hg1, if_neg hg2]
  dsimp only
  split <;> rfl

theorem RightMv_lines (g : GapBuffer) (hg1 : ¬ (g.start : Int) > (g.data.length : Int) - 2)
    (hg2 : ¬ (g.end_ : Int) > (g.data.length : Int) - 1) :
    (g.RightMv).lines =
      if (decodeRune (g.data.drop g.end_)).1 = nl then g.lines.down else g.lines := by
  rw [GapBuffer.RightMv, if_neg hg1, if_neg hg2]
  dsimp only
  split <;> rfl

/-! The recorded line lengths are invariant under the gap shifts of
the line buffer: up and down move one slot across the gap but do not
change the multiset of live slots. -/

theorem recorded_up (l : lineBuffer) (h1 : l.start < l.end_)
    (h2 : l.end_ ≤ l.lengths.length) (h3 : 1 ≤ l.start) :
    recordedLineLengths l.up = recordedLineLengths l := by
  have hs : l.start < l.lengths.length := by omega
  have he : l.end_ - 1 < l.lengths.length := by omega
  have hset : l.lengths.set (l.end_ - 1) (l.lengths.getD l.start 0) =
      l.lengths.take (l.end_ - 1) ++ l.lengths.getD l.start 0 :: l.lengths.drop l.end_ := by
    rw [List.set_eq_take_cons_drop _ he, show l.end_ - 1 + 1 = l.end_ from by omega]
  have hstart_le : l.start ≤ l.end_ - 1 := by omega
  have hlt : (l.lengths.take (l.end_ - 1)).length = l.end_ - 1 := by
    rw [List.length_take]
    omega
  simp only [recordedLineLengths, lineBuffer.up, hset]
  rw [show l.start - 1 + 1 = l.start from by omega]
  rw [take_append_le (by rw [hlt]; exact hstart_le)]
  rw [List.take_take, Nat.min_eq_left hstart_le]
  rw [drop_append_exact hlt]
  rw [List.take_succ]
  have h5 : l.lengths[l.start]? = some (l.lengths.getD l.start 0) := by
    rw [List.getElem?_eq_getElem hs]
    rw [List.getD_eq_getElem l.lengths 0 hs]
  rw [h5]
  simp

theorem recorded_down (l : lineBuffer) (h1 : l.start < l.end_)
    (h2 : l.end_ < l.lengths.length) :
    recordedLineLengths l.down = recordedLineLengths l := by
  have hs : l.start + 1 < l.lengths.length := by omega
  have hset : l.lengths.set (l.start + 1) (l.lengths.getD l.end_ 0) =
      l.lengths.take (l.start + 1) ++ l.lengths.getD l.end_ 0 :: l.lengths.drop (l.start + 2) := by
    rw [List.set_eq_take_cons_drop _ hs]
  simp only [recordedLineLengths, lineBuffer.down, hset]
  have hlt : (l.lengths.take (l.start + 1)).length = l.start + 1 := by
    simp [List.length_take]
    omega
  have ht : (l.lengths.take (l.start + 1) ++ l.lengths.getD l.end_ 0 ::
      l.lengths.drop (l.start + 2)).take (l.start + 1 + 1) =
      l.lengths.take (l.start + 1) ++ [l.lengths.getD l.end_ 0] := by
    rw [List.take_append_eq_append_take, List.take_of_length_le (by omega), hlt]
    have : l.start + 1 + 1 - (l.start + 1) = 1 := by omega
    rw [this]
    rfl
  have hdr : (l.lengths.take (l.start + 1) ++ l.lengths.getD l.end_ 0 ::
      l.lengths.drop (l.start + 2)).drop (l.end_ + 1) =
      l.lengths.drop (l.end_ + 1) := by
    rw [List.drop_append_eq_append_drop, List.drop_eq_nil_of_le (by omega), hlt]
    rw [List.nil_append]
    show (l.lengths.getD l.end_ 0 :: l.lengths.drop (l.start + 2)).drop
      (l.end_ + 1 - (l.start + 1)) = _
    have he : l.end_ + 1 - (l.start + 1) = (l.end_ - (l.start + 1)) + 1 := by omega
    rw [he, List.drop_succ_cons, List.drop_drop]
    congr 1
    omega
  rw [ht, hdr]
  have hrhs : l.lengths.drop l.end_ =
      l.lengths.getD l.end_ 0 :: l.lengths.drop (l.end_ + 1) := by
    rw [List.drop_eq_getElem_cons h2, List.getD_eq_getElem l.lengths 0 h2]
  rw [hrhs]
  simp

/-- One LeftMv peels the last rune chunk off the left part and parks
it just after the gap, preserving the MovedState description. -/
theorem left_step {g h : GapBuffer} {l0 e : List Nat} {es1 es2 : List (List Nat)}
    (_hg1 : g.start < g.end_)
    (hgl1 : g.lines.start < g.lines.end_)
    (hgl2 : g.lines.end_ ≤ g.lines.lengths.length)
    (hcnt : ((es1 ++ [e]) ++ es2).count [nl] ≤ g.lines.start)
    (he : encBytes e = true)
    (hm : MovedState g l0 (es1 ++ [e]) es2 h) :
    MovedState g l0 es1 (e :: es2) h.LeftMv := by
  obtain ⟨m1, m2, m3, m4, m5, m6, m7, m8, m9, m10⟩ := hm
  have hjl : (es1 ++ [e]).join = es1.join ++ e := by
    simp [List.join_append]
  have hepos : 1 ≤ e.length := encBytes_pos he
  have hstart_val : h.start = l0.length + es1.join.length + e.length := by
    rw [m1, hjl]
    simp only [List.length_append]
    omega
  have hP : h.data.take h.start = (l0 ++ es1.join) ++ e := by
    rw [m5, hjl, List.append_assoc]
  have hdec : decodeLastRune (h.data.take h.start) = decodeRune e := by
    rw [hP]
    exact decodeLastRune_append he
  have hlen2 : (decodeRune e).2 = e.length := decodeRune_enc_len he
  have hg : ¬ h.start < 1 := by omega
  have ps := LeftMv_start h hg
  have pe := LeftMv_end h hg
  have pd := LeftMv_data h hg
  have pl := LeftMv_lines h hg
  rw [hdec, hlen2] at ps pe pd
  rw [hdec] at pl
  have hstart_le_len : h.start ≤ h.data.length := by omega
  have hsplit := (List.take_append_drop h.start h.data).symm
  have hdrop1 : h.data.drop (h.start - e.length) = e ++ h.data.drop h.start := by
    conv_lhs => rw [hsplit, hP, List.append_assoc]
    exact drop_append_exact (by simp [hstart_val])
  have hsrc : (h.data.drop (h.start - e.length)).take e.length = e := by
    rw [hdrop1]
    exact take_append_exact rfl
  rw [hsrc] at pd
  have hcopy : listCopy h.data (h.end_ - e.length) e =
      h.data.take (h.end_ - e.length) ++ e ++ h.data.drop h.end_ := by
    rw [listCopy_eq (by omega)]
    rw [show h.end_ - e.length + e.length = h.end_ from by omega]
  rw [hcopy] at pd
  have hAlen : (h.data.take (h.end_ - e.length)).length = h.end_ - e.length := by
    rw [List.length_take]
    omega
  refine ⟨?_, ?_, ?_, ?_, ?_, ?_, ?_, ?_, ?_, ?_⟩
  · rw [ps]
    omega
  · rw [pe, ps]
    omega
  · rw [pe, pd]
    simp only [List.length_append, List.length_take, List.length_drop]
    omega
  · rw [pd]
    simp only [List.length_append, List.length_take, List.length_drop]
    omega
  · rw [ps, pd, List.append_assoc]
    rw [take_append_le (by omega)]
    rw [List.take_take, Nat.min_eq_left (by omega)]
    have h2 : h.data.take (h.start - e.length) = (h.data.take h.start).take (h.start - e.length) := by
      rw [List.take_take, Nat.min_eq_left (by omega)]
    rw [h2, hP, take_append_exact (by simp [hstart_val])]
  · rw [pe, pd, List.append_assoc]
    rw [drop_append_exact hAlen]
    rw [m6]
    simp [List.join]
  · rw [pl]
    by_cases hnl : (decodeRune e).1 = nl
    · rw [if_pos hnl]
      have hel : e = [nl] := (decodeRune_nl_iff he).mp hnl
      have hcount : (e :: es2).count [nl] = es2.count [nl] + 1 := by
        rw [hel]
        simp [List.count_cons]
      have c2 : ((es1 ++ [e]) ++ es2).count [nl] =
          (es1 ++ [e]).count [nl] + es2.count [nl] := List.count_append _ _ _
      have c1 : 1 ≤ (es1 ++ [e]).count [nl] := by
        rw [hel]
        simp [List.count_append]
      show h.lines.start - 1 + (e :: es2).count [nl] = g.lines.start
      omega
    · rw [if_neg hnl]
      have hel : e ≠ [nl] := fun hh => hnl ((decodeRune_nl_iff he).mpr hh)
      have hcount : (e :: es2).count [nl] = es2.count [nl] := by
        simp [List.count_cons, hel]
      rw [hcount]
      exact m7
  · rw [pl]
    by_cases hnl : (decodeRune e).1 = nl
    · rw [if_pos hnl]
      have hel : e = [nl] := (decodeRune_nl_iff he).mp hnl
      have hcount : (e :: es2).count [nl] = es2.count [nl] + 1 := by
        rw [hel]
        simp [List.count_cons]
      show h.lines.end_ - 1 + (e :: es2).count [nl] = g.lines.end_
      omega
    · rw [if_neg hnl]
      have hel : e ≠ [nl] := fun hh => hnl ((decodeRune_nl_iff he).mpr hh)
      have hcount : (e :: es2).count [nl] = es2.count [nl] := by
        simp [List.count_cons, hel]
      rw [hcount]
      exact m8
  · rw [pl]
    by_cases hnl : (decodeRune e).1 = nl
    · rw [if_pos hnl]
      simp only [lineBuffer.up, List.length_set]
      exact m9
    · rw [if_neg hnl]
      exact m9
  · rw [pl]
    by_cases hnl : (decodeRune e).1 = nl
    · rw [if_pos hnl]
      have hel : e = [nl] := (decodeRune_nl_iff he).mp hnl
      have c2 : ((es1 ++ [e]) ++ es2).count [nl] =
          (es1 ++ [e]).count [nl] + es2.count [nl] := List.count_append _ _ _
      have c1 : 1 ≤ (es1 ++ [e]).count [nl] := by
        rw [hel]
        simp [List.count_append]
      rw [recorded_up h.lines (by omega) (by omega) (by omega)]
      exact m10
    · rw [if_neg hnl]
      exact m10

/-- One RightMv moves the first rune chunk parked after the gap back
to the left of the cursor, preserving the MovedState description. -/
theorem right_step {g h : GapBuffer} {l0 e : List Nat} {es1 es2 : List (List Nat)}
    (hg1 : g.start < g.end_)
    (hgl1 : g.lines.start < g.lines.end_)
    (hgl2 : g.lines.end_ ≤ g.lines.lengths.length)
    (he : encBytes e = true)
    (hm : MovedState g l0 es1 (e :: es2) h) :
    MovedState g l0 (es1 ++ [e]) es2 h.RightMv := by
  obtain ⟨m1, m2, m3, m4, m5, m6, m7, m8, m9, m10⟩ := hm
  have hjl : (es1 ++ [e]).join = es1.join ++ e := by
    simp [List.join_append]
  have hepos : 1 ≤ e.length := encBytes_pos he
  have hm6 : h.data.drop h.end_ = e ++ (es2.join ++ g.data.drop g.end_) := by
    rw [m6]
    simp [List.join]
  have hlend : h.data.length - h.end_ =
      e.length + (es2.join.length + (g.data.length - g.end_)) := by
    have := congrArg List.length hm6
    simpa [List.length_drop, List.length_append] using this
  have hdge : h.end_ + e.length ≤ h.data.length := by omega
  have hga : ¬ (h.start : Int) > (h.data.length : Int) - 2 := by omega
  have hgb : ¬ (h.end_ : Int) > (h.data.length : Int) - 1 := by omega
  have ps := RightMv_start h hga hgb
  have pe := RightMv_end h hga hgb
  have pd := RightMv_data h hga hgb
  have pl := RightMv_lines h hga hgb
  have hdec : decodeRune (h.data.drop h.end_) = decodeRune e := by
    rw [hm6]
    exact decodeRune_append _ he
  have hlen2 : (decodeRune e).2 = e.length := decodeRune_enc_len he
  rw [hdec, hlen2] at ps pe pd
  rw [hdec] at pl
  have hsrc : (h.data.drop h.end_).take e.length = e := by
    rw [hm6]
    exact take_append_exact rfl
  rw [hsrc] at pd
  have hstart_len : h.start + e.length ≤ h.data.length := by omega
  have hcopy : listCopy h.data h.start e =
      h.data.take h.start ++ e ++ h.data.drop (h.start + e.length) := by
    rw [listCopy_eq hstart_len]
  rw [hcopy] at pd
  have hABlen : (h.data.take h.start ++ e).length = h.start + e.length := by
    simp only [List.length_append, List.length_take]
    omega
  refine ⟨?_, ?_, ?_, ?_, ?_, ?_, ?_, ?_, ?_, ?_⟩
  · rw [ps, m1, hjl]
    simp only [List.length_append]
    omega
  · rw [pe, ps]
    omega
  · rw [pe, pd]
    simp only [List.length_append, List.length_take, List.length_drop]
    omega
  · rw [pd]
    simp only [List.length_append, List.length_take, List.length_drop]
    omega
  · rw [ps, pd]
    rw [take_append_exact hABlen]
    rw [m5, hjl, List.append_assoc]
  · rw [pe, pd]
    have hd1 : (h.data.take h.start ++ e ++ h.data.drop (h.start + e.length)).drop
        (h.end_ + e.length) = h.data.drop (h.end_ + e.length) := by
      rw [List.drop_append_eq_append_drop, List.drop_eq_nil_of_le (by omega), hABlen,
        List.nil_append, List.drop_drop]
      congr 1
      omega
    rw [hd1]
    have hx : (h.data.drop h.end_).drop e.length = h.data.drop (h.end_ + e.length) := by
      rw [List.drop_drop]
    rw [← hx, hm6, drop_append_exact rfl]
  · rw [pl]
    by_cases hnl : (decodeRune e).1 = nl
    · rw [if_pos hnl]
      have hel : e = [nl] := (decodeRune_nl_iff he).mp hnl
      have hcount : (e :: es2).count [nl] = es2.count [nl] + 1 := by
        rw [hel]
        simp [List.count_cons]
      show h.lines.start + 1 + es2.count [nl] = g.lines.start
      omega
    · rw [if_neg hnl]
      have hel : e ≠ [nl] := fun hh => hnl ((decodeRune_nl_iff he).mpr hh)
      have hcount : (e :: es2).count [nl] = es2.count [nl] := by
        simp [List.count_cons, hel]
      omega
  · rw [pl]
    by_cases hnl : (decodeRune e).1 = nl
    · rw [if_pos hnl]
      have hel : e = [nl] := (decodeRune_nl_iff he).mp hnl
      have hcount : (e :: es2).count [nl] = es2.count [nl] + 1 := by
        rw [hel]
        simp [List.count_cons]
      show h.lines.end_ + 1 + es2.count [nl] = g.lines.end_
      omega
    · rw [if_neg hnl]
      have hel : e ≠ [nl] := fun hh => hnl ((decodeRune_nl_iff he).mpr hh)
      have hcount : (e :: es2).count [nl] = es2.count [nl] := by
        simp [List.count_cons, hel]
      omega
  · rw [pl]
    by_cases hnl : (decodeRune e).1 = nl
    · rw [if_pos hnl]
      simp only [lineBuffer.down, List.length_set]
      exact m9
    · rw [if_neg hnl]
      exact m9
  · rw [pl]
    by_cases hnl : (decodeRune e).1 = nl
    · rw [if_pos hnl]
      have hel : e = [nl] := (decodeRune_nl_iff he).mp hnl
      have hcount : (e :: es2).count [nl] = es2.count [nl] + 1 := by
        rw [hel]
        simp [List.count_cons]
      rw [recorded_down h.lines (by omega) (by omega)]
      exact m10
    · rw [if_neg hnl]
      exact m10

/-- Iterating LeftMv moves every chunk of es1 across the gap. -/
theorem left_phase (g : GapBuffer) (l0 : List Nat)
    (hg1 : g.start < g.end_)
    (hgl1 : g.lines.start < g.lines.end_)
    (hgl2 : g.lines.end_ ≤ g.lines.lengths.length) :
    ∀ es1 es2 h, (∀ x ∈ es1, encBytes x = true) →
      (es1 ++ es2).count [nl] ≤ g.lines.start →
      MovedState g l0 es1 es2 h →
      MovedState g l0 [] (es1 ++ es2) (GapBuffer.LeftMv^[es1.length] h) := by
  intro es1
  induction es1 using List.reverseRecOn with
  | nil =>
    intro es2 h _ _ hm
    simpa using hm
  | append_singleton A e ih =>
    intro es2 h henc hcnt hm
    have he : encBytes e = true := henc e (by simp)
    have step := left_step hg1 hgl1 hgl2 hcnt he hm
    have ih' := ih (e :: es2) h.LeftMv (fun x hx => henc x (by simp [hx]))
      (by simpa using hcnt) step
    rw [show (A ++ [e]) ++ es2 = A ++ (e :: es2) by simp]
    rw [show (A ++ [e]).length = A.length + 1 by simp]
    rw [Function.iterate_succ_apply]
    exact ih'

/-- Iterating RightMv moves every chunk of es2 back across the gap. -/
theorem right_phase (g : GapBuffer) (l0 : List Nat)
    (hg1 : g.start < g.end_)
    (hgl1 : g.lines.start < g.lines.end_)
    (hgl2 : g.lines.end_ ≤ g.lines.lengths.length) :
    ∀ es2 es1 h, (∀ x ∈ es2, encBytes x = true) →
      MovedState g l0 es1 es2 h →
      MovedState g l0 (es1 ++ es2) [] (GapBuffer.RightMv^[es2.length] h) := by
  intro es2
  induction es2 with
  | nil =>
    intro es1 h _ hm
    simpa using hm
  | cons e t ih =>
    intro es1 h henc hm
    have he : encBytes e = true := henc e (by simp)
    have step := right_step hg1 hgl1 hgl2 he hm
    have ih' := ih (es1 ++ [e]) h.RightMv (fun x hx => henc x (by simp [hx])) step
    rw [show es1 ++ e :: t = (es1 ++ [e]) ++ t by simp]
    rw [show (e :: t).length = t.length + 1 from rfl]
    rw [Function.iterate_succ_apply]
    exact ih'

/-- C6, amended.  For a buffer with a nonempty gap, both gap bounds in
range, a sound line index gap (start below end, end within the slot
array, at least as many lines before the cursor as newlines among the
moved runes), whose bytes left of the cursor end in a sequence of
well-formed UTF-8 rune encodings es, moving left once per rune of es
and then right the same number of times restores both the content and
the cursor position. -/
theorem c6_move_roundtrip (g : GapBuffer) (l0 : List Nat) (es : List (List Nat))
    (hwf1 : g.start < g.end_) (hwf2 : g.end_ ≤ g.data.length)
    (hleft : g.data.take g.start = l0 ++ es.join)
    (henc : ∀ e ∈ es, encBytes e = true)
    (hl1 : g.lines.start < g.lines.end_)
    (hl2 : g.lines.end_ ≤ g.lines.lengths.length)
    (hl3 : es.count [nl] ≤ g.lines.start) :
    (GapBuffer.RightMv^[es.length] (GapBuffer.LeftMv^[es.length] g)).String = g.String ∧
      (GapBuffer.RightMv^[es.length] (GapBuffer.LeftMv^[es.length] g)).start = g.start := by
  have hstart_len : g.start ≤ g.data.length := by omega
  have hstart_eq : g.start = l0.length + es.join.length := by
    have hh := congrArg List.length hleft
    simpa [List.length_take, Nat.min_eq_left hstart_len] using hh
  have base : MovedState g l0 es [] g :=
    ⟨hstart_eq, by omega, hwf2, rfl, hleft, by simp, by simp, by simp, rfl, rfl⟩
  have lph := left_phase g l0 hwf1 hl1 hl2 es [] g henc (by simpa using hl3) base
  rw [List.append_nil] at lph
  have rph := right_phase g l0 hwf1 hl1 hl2 es []
    (GapBuffer.LeftMv^[es.length] g) henc lph
  rw [List.nil_append] at rph
  obtain ⟨r1, r2, r3, r4, r5, r6, _, _, _, _⟩ := rph
  constructor
  · rw [GapBuffer.String, GapBuffer.String, r5, r6, hleft]
    simp
  · omega

/-- C6, counterexample.  With four runes left of the cursor and n = 1,
one moveCursorLeft followed by one moveCursorRight does not restore
the cursor position: on this zero-gap buffer the return move's guard
gapStart > len(storage)-2 fires and the move is refused, leaving the
cursor at 3 instead of 4. -/
theorem c6_roundtrip_fails_on_full_buffer :
    c6Buf.start = 4 ∧ ((c6Buf.LeftMv).RightMv).String = c6Buf.String ∧
      ((c6Buf.LeftMv).RightMv).start = 3 ∧
      ((c6Buf.LeftMv).RightMv).start ≠ c6Buf.start := by
  refine ⟨by decide, by decide, by decide, by decide⟩

/-- Closed instance of c6_move_roundtrip: three runes, one of them the
newline, moved left over "a\nb" and back. -/
theorem c6_move_roundtrip_witness :
    (c6WBuf.start < c6WBuf.end_ ∧ c6WBuf.end_ ≤ c6WBuf.data.length ∧
      c6WBuf.data.take c6WBuf.start = [] ++ ([[97], [nl], [98]] : List (List Nat)).join ∧
      c6WBuf.lines.start < c6WBuf.lines.end_ ∧
      c6WBuf.lines.end_ ≤ c6WBuf.lines.lengths.length ∧
      ([[97], [nl], [98]] : List (List Nat)).count [nl] ≤ c6WBuf.lines.start) ∧
    ((GapBuffer.RightMv^[3] (GapBuffer.LeftMv^[3] c6WBuf)).String = c6WBuf.String ∧
      (GapBuffer.RightMv^[3] (GapBuffer.LeftMv^[3] c6WBuf)).start = c6WBuf.start) :=
  ⟨⟨by decide, by decide, by decide, by decide, by decide, by decide⟩,
    c6_move_roundtrip c6WBuf [] [[97], [nl], [98]] (by decide) (by decide) (by decide)
      (by decide) (by decide) (by decide) (by decide)⟩

end Gapbuffer
